import Mathlib

/-!
# Verification of the ckb-graphql-types codec

A shallow embedding of the `ckb-graphql-types` Rust crate: the scalar
hexadecimal codec (`src/hex.rs`, the `graphql_primitive!` macro arms of
`src/lib.rs`), the error taxonomy (`src/error.rs`), and the structural
codec between `packed` records and the typed view structures
(`src/cell.rs`, `src/transaction.rs`).

Conventions of the embedding:
* Rust strings are modelled as `List Char` (the character sequence of the
  string); bytes are `Nat` values, expected `< 256`.
* Machine integers are `Nat` with explicit bounds (`< 2 ^ 32` etc.) where
  overflow matters.
* A Rust `panic!`/`unreachable!` is modelled by `Option.none`: the function
  produces no value at all (it does not return a typed error).
* The external molecule serialization of `ckb_types::packed` records is
  modelled structurally: a packed record is a Lean structure whose leaves
  are explicit byte lists (little-endian for fixed-width integers, raw
  byte lists for hashes and byte strings, a single tag byte for
  enumerations).  On structurally valid (canonical) records the molecule
  byte layout is in bijection with this structured content, so byte
  identity of records is structural equality of these values.
-/

namespace CkbGraphql

/-! ## Little-endian fixed-width integers (molecule `Uint32`/`Uint64` leaves) -/

/-- Decode a little-endian byte list to its numeric value. -/
def leDecode : List Nat → Nat
  | [] => 0
  | b :: bs => b + 256 * leDecode bs

/-- Encode a numeric value as a little-endian byte list of width `w`. -/
def leEncode : Nat → Nat → List Nat
  | 0, _ => []
  | w + 1, v => v % 256 :: leEncode w (v / 256)

/-! ## Hex characters

`nibbleChar` models the lookup table `"0123456789abcdef"` used by
`faster_hex::hex_string`; `hexDigitVal?` models both `faster_hex`'s
accepted digit set (`0-9a-fA-F`) and Rust's `char::to_digit(16)`. -/

def nibbleChar : Nat → Char
  | 0 => '0' | 1 => '1' | 2 => '2' | 3 => '3'
  | 4 => '4' | 5 => '5' | 6 => '6' | 7 => '7'
  | 8 => '8' | 9 => '9' | 10 => 'a' | 11 => 'b'
  | 12 => 'c' | 13 => 'd' | 14 => 'e' | _ => 'f'

def hexDigitVal? (c : Char) : Option Nat :=
  if '0' ≤ c ∧ c ≤ '9' then some (c.toNat - 48)
  else if 'a' ≤ c ∧ c ≤ 'f' then some (c.toNat - 87)
  else if 'A' ≤ c ∧ c ≤ 'F' then some (c.toNat - 55)
  else none

/-- The sixteen characters lowercase hexadecimal output may contain. -/
def lowerHexChars : List Char := (List.range 16).map nibbleChar

/-! ## Error taxonomy (`src/error.rs` and the external error types it wraps) -/

/-- `faster_hex::Error`. -/
inductive FasterHexError where
  | InvalidChar : FasterHexError
  | InvalidLength : Nat → FasterHexError
  | Overflow : FasterHexError
  deriving DecidableEq, Repr

/-- The kind carried by `std::num::ParseIntError` (the cases reachable from
unsigned radix-16 parsing). -/
inductive IntErrorKind where
  | Empty : IntErrorKind
  | InvalidDigit : IntErrorKind
  | PosOverflow : IntErrorKind
  deriving DecidableEq, Repr

/-- `crate::error::Error`. -/
inductive Error where
  | ParseBytes : Error
  | ParseUint : IntErrorKind → Error
  | FromHex : FasterHexError → Error
  | HexPrefixError : Error
  deriving DecidableEq, Repr

/-! ## `src/hex.rs` -/

/-- The character sequence of `HEX_PREFIX` (`"0x"`). -/
def hexMark : List Char := ['0', 'x']

/-- `faster_hex::hex_string`: two lowercase hex digits per byte. -/
def hexString (bs : List Nat) : List Char :=
  bs.flatMap fun b => [nibbleChar (b / 16), nibbleChar (b % 16)]

/-- `hex_encode`: `"0x"` followed by the lowercase hex of every byte. -/
def hex_encode (bs : List Nat) : List Char := hexMark ++ hexString bs

/-- Digit-emission loop of Rust's `format!("{:x}", v)` numeric formatting
(fuel-based structural recursion; any `fuel > v` yields the digits of `v`):
lowercase hexadecimal, no leading zeros, a single `'0'` for zero. -/
def natHexAux : Nat → Nat → List Char → List Char
  | 0, _, acc => acc
  | fuel + 1, v, acc =>
      if v < 16 then nibbleChar v :: acc
      else natHexAux fuel (v / 16) (nibbleChar (v % 16) :: acc)

/-- The digit list of `format!("{:x}", v)`. -/
def natHexDigits (v : Nat) : List Char := natHexAux (v + 1) v []

/-- `hex_uint`: `"0x"` followed by `format!("{:x}", v)`. -/
def hex_uint (v : Nat) : List Char := hexMark ++ natHexDigits v

/-- `clean_0x`: strip a required `"0x"`/`"0X"` lead, else `Error::HexPrefix`. -/
def clean_0x (s : List Char) : Except Error (List Char) :=
  if s.take 2 = ['0', 'x'] ∨ s.take 2 = ['0', 'X'] then .ok (s.drop 2)
  else .error .HexPrefixError

/-- The pairwise byte decoding performed by `faster_hex::hex_decode` once its
checks have passed (two hex digits per output byte). -/
def decodePairs : List Char → List Nat
  | c1 :: c2 :: rest =>
      (((hexDigitVal? c1).getD 0) * 16 + (hexDigitVal? c2).getD 0) :: decodePairs rest
  | _ => []

/-- `faster_hex::hex_decode(src, dst)` with `dst` sized `src.len() / 2` (as
`hex_decode` in `src/hex.rs` allocates it): an odd-length source fails with
`InvalidLength`, a source with a character outside `0-9a-fA-F` fails with
`InvalidChar`, otherwise the pairwise decoding is returned. -/
def fasterHexDecode (src : List Char) : Except FasterHexError (List Nat) :=
  if src.length % 2 ≠ 0 then .error (.InvalidLength src.length)
  else if src.all fun c => (hexDigitVal? c).isSome then .ok (decodePairs src)
  else .error .InvalidChar

/-- `hex_decode`: empty input short-circuits to the empty byte string before
the prefix check; otherwise `clean_0x` then `faster_hex::hex_decode` (the `?`
operator on each fallible step). -/
def hex_decode (s : List Char) : Except Error (List Nat) :=
  if s = [] then .ok [] else
    match clean_0x s with
    | .error e => .error e
    | .ok t => (fasterHexDecode t).mapError Error.FromHex

/-! ## `u32/u64/u128::from_str_radix(s, 16)` (Rust core, unsigned) -/

/-- The digit-accumulation loop of unsigned `from_str_radix`: `InvalidDigit`
on a character outside `0-9a-fA-F`, `PosOverflow` as soon as the accumulator
would leave the width's range. -/
def parseHexLoop (width acc : Nat) : List Char → Except IntErrorKind Nat
  | [] => .ok acc
  | c :: cs =>
      match hexDigitVal? c with
      | none => .error .InvalidDigit
      | some d =>
          if acc * 16 + d < 2 ^ width then parseHexLoop width (acc * 16 + d) cs
          else .error .PosOverflow

/-- Unsigned `from_str_radix(s, 16)` for a `width`-bit integer: empty input is
`Empty`, an optional leading `'+'` is stripped (a bare `"+"` is
`InvalidDigit`), then the digits accumulate in radix 16. -/
def from_str_radix16 (width : Nat) (s : List Char) : Except IntErrorKind Nat :=
  match s with
  | [] => .error .Empty
  | c :: cs =>
      if c = '+' then
        if cs = [] then .error .InvalidDigit else parseHexLoop width 0 cs
      else parseHexLoop width 0 (c :: cs)

/-! ## The scalar types of `src/lib.rs` (`graphql_primitive!` instantiations)

The macro generates one wrapper per scalar; the three macro arms are embedded
as three parameterized codecs, instantiated at the widths/lengths the crate
uses (`Uint32`/`Uint64`/`Uint128`, `H160`/`H256`, `GraphqlBytes`). -/

/-- `FromStr` of the uint arm: `clean_0x` then `from_str_radix(_, 16)`. -/
def uintFromStr (width : Nat) (s : List Char) : Except Error Nat :=
  match clean_0x s with
  | .error e => .error e
  | .ok t => (from_str_radix16 width t).mapError Error.ParseUint

/-- `ScalarType::to_value` of the uint arm: `hex_uint(self.0)`. -/
def uintToValue (v : Nat) : List Char := hex_uint v

/-- `FromStr` of the fixed-length hash arm: `hex_decode`, then the decoded
byte length must equal the wrapper's length or `Error::ParseBytes`. -/
def hashFromStr (len : Nat) (s : List Char) : Except Error (List Nat) :=
  match hex_decode s with
  | .error e => .error e
  | .ok bytes => if bytes.length ≠ len then .error .ParseBytes else .ok bytes

/-- `ScalarType::to_value` of the hash arm: `hex_encode(&self.0)`. -/
def hashToValue (bs : List Nat) : List Char := hex_encode bs

/-- `FromStr` of the byte-string arm (`GraphqlBytes`): `hex_decode` alone. -/
def bytesFromStr (s : List Char) : Except Error (List Nat) := hex_decode s

/-- `ScalarType::to_value` of the byte-string arm: `hex_encode(&self.0)`. -/
def bytesToValue (bs : List Nat) : List Char := hex_encode bs

instance {ε α : Type} [DecidableEq ε] [DecidableEq α] : DecidableEq (Except ε α) :=
  fun a b =>
    match a, b with
    | .ok x, .ok y =>
        if h : x = y then .isTrue (by rw [h])
        else .isFalse fun hc => by cases hc; exact h rfl
    | .error x, .error y =>
        if h : x = y then .isTrue (by rw [h])
        else .isFalse fun hc => by cases hc; exact h rfl
    | .ok _, .error _ => .isFalse fun hc => by cases hc
    | .error _, .ok _ => .isFalse fun hc => by cases hc

/-- The numeric value denoted by a digit string (most-significant first). -/
def digitsVal (ds : List Char) : Nat :=
  ds.foldl (fun a c => a * 16 + (hexDigitVal? c).getD 0) 0

/-! ## The typed view structures (`src/cell.rs`, `src/transaction.rs`) -/

/-- `Uint32` (wraps a `u32` value). -/
structure Uint32 where
  val : Nat
  deriving DecidableEq, Repr

/-- `Uint64` (wraps a `u64` value); `Capacity` is an alias of it. -/
structure Uint64 where
  val : Nat
  deriving DecidableEq, Repr

/-- `H256` (wraps `[u8; 32]`). -/
structure H256 where
  val : List Nat
  deriving DecidableEq, Repr

/-- `GraphqlBytes` (wraps a variable-length byte string). -/
structure GraphqlBytes where
  val : List Nat
  deriving DecidableEq, Repr

/-- `ScriptHashType`: Data = 0, Type = 1, Data1 = 2. -/
inductive ScriptHashType where
  | Data : ScriptHashType
  | Type_ : ScriptHashType
  | Data1 : ScriptHashType
  deriving DecidableEq, Repr

/-- `DepType`: Code = 0, DepGroup = 1. -/
inductive DepType where
  | Code : DepType
  | DepGroup : DepType
  deriving DecidableEq, Repr

structure Script where
  code_hash : H256
  hash_type : ScriptHashType
  args : GraphqlBytes
  deriving DecidableEq, Repr

structure OutPoint where
  tx_hash : H256
  index : Uint32
  deriving DecidableEq, Repr

structure CellInput where
  since : Uint64
  previous_output : OutPoint
  deriving DecidableEq, Repr

structure CellOutput where
  capacity : Uint64
  lock : Script
  type_ : Option Script
  deriving DecidableEq, Repr

structure CellDep where
  out_point : OutPoint
  dep_type : DepType
  deriving DecidableEq, Repr

/-- `TransactionView` (`src/transaction.rs`). -/
structure TransactionView where
  version : Uint32
  cell_deps : List CellDep
  header_deps : List H256
  inputs : List CellInput
  outputs : List CellOutput
  outputs_data : List GraphqlBytes
  witnesses : List GraphqlBytes
  hash : H256
  deriving DecidableEq, Repr

/-! ## The packed (binary) records

Structured embedding of the molecule records of `ckb_types::packed`: every
leaf is its byte content (little-endian byte list for `Uint32`/`Uint64`
leaves, 32-byte list for `Byte32`, raw byte list for `Bytes`, one tag byte
for the enumerations).  On canonical records this content determines the
serialized bytes bijectively, so byte identity is structural equality. -/

structure POutPoint where
  tx_hash : List Nat
  index : List Nat
  deriving DecidableEq, Repr

structure PCellInput where
  since : List Nat
  previous_output : POutPoint
  deriving DecidableEq, Repr

structure PScript where
  code_hash : List Nat
  hash_type : Nat
  args : List Nat
  deriving DecidableEq, Repr

structure PCellOutput where
  capacity : List Nat
  lock : PScript
  type_ : Option PScript
  deriving DecidableEq, Repr

structure PCellDep where
  out_point : POutPoint
  dep_type : Nat
  deriving DecidableEq, Repr

/-- `packed::RawTransaction`: the structural (non-witness) portion. -/
structure PRawTransaction where
  version : List Nat
  cell_deps : List PCellDep
  header_deps : List (List Nat)
  inputs : List PCellInput
  outputs : List PCellOutput
  outputs_data : List (List Nat)
  deriving DecidableEq, Repr

/-- `packed::Transaction`. -/
structure PTransaction where
  raw : PRawTransaction
  witnesses : List (List Nat)
  deriving DecidableEq, Repr

/-! ## Tag decoding (`impl From<packed::Byte>` in `src/cell.rs`)

The Rust decoders hit `unreachable!(..)` on a byte outside the enumerated
set; that panic is modelled by `Option.none` (no value is produced, and in
particular no value of the crate's `Error` type, which has no invalid-tag
variant). -/

def scriptHashTypeFromByte (b : Nat) : Option ScriptHashType :=
  match b with
  | 0 => some .Data
  | 1 => some .Type_
  | 2 => some .Data1
  | _ => none

/-- `value.hash_type as u8` in `impl From<Script> for packed::Script`. -/
def ScriptHashType.toByte : ScriptHashType → Nat
  | .Data => 0
  | .Type_ => 1
  | .Data1 => 2

def depTypeFromByte (b : Nat) : Option DepType :=
  match b with
  | 0 => some .Code
  | 1 => some .DepGroup
  | _ => none

/-- `value.dep_type as u8` in `impl From<CellDep> for packed::CellDep`. -/
def DepType.toByte : DepType → Nat
  | .Code => 0
  | .DepGroup => 1

/-! ## Structural decoding (`impl From<packed::X> for X`) -/

def outPointFromPacked (p : POutPoint) : OutPoint :=
  { tx_hash := ⟨p.tx_hash⟩, index := ⟨leDecode p.index⟩ }

def cellInputFromPacked (p : PCellInput) : CellInput :=
  { since := ⟨leDecode p.since⟩, previous_output := outPointFromPacked p.previous_output }

def scriptFromPacked (p : PScript) : Option Script :=
  (scriptHashTypeFromByte p.hash_type).map fun ht =>
    { code_hash := ⟨p.code_hash⟩, hash_type := ht, args := ⟨p.args⟩ }

def cellOutputFromPacked (p : PCellOutput) : Option CellOutput :=
  match scriptFromPacked p.lock with
  | none => none
  | some lock =>
      match p.type_ with
      | none => some { capacity := ⟨leDecode p.capacity⟩, lock := lock, type_ := none }
      | some s =>
          match scriptFromPacked s with
          | none => none
          | some ts => some { capacity := ⟨leDecode p.capacity⟩, lock := lock, type_ := some ts }

def cellDepFromPacked (p : PCellDep) : Option CellDep :=
  (depTypeFromByte p.dep_type).map fun dt =>
    { out_point := outPointFromPacked p.out_point, dep_type := dt }

/-- A list map whose element conversion may panic (`none` propagates, as a
Rust panic inside `.map(Into::into).collect()` aborts the whole decode). -/
def mapPanic {α β : Type} (f : α → Option β) : List α → Option (List β)
  | [] => some []
  | x :: xs =>
      match f x with
      | none => none
      | some y =>
          match mapPanic f xs with
          | none => none
          | some ys => some (y :: ys)

/-- `impl From<packed::Transaction> for TransactionView`, parameterized by the
black-box canonical hash `H` (`calc_tx_hash`, an external collision-resistant
hash of the serialized `raw` portion): every structural field is converted
leaf-by-leaf, the witnesses are copied, and `hash` is `H` of the raw (binary)
portion only — witnesses excluded, the typed structure never consulted. -/
def transactionViewFromPacked (H : PRawTransaction → List Nat) (p : PTransaction) :
    Option TransactionView :=
  match mapPanic cellDepFromPacked p.raw.cell_deps,
    mapPanic cellOutputFromPacked p.raw.outputs with
  | some cds, some outs =>
      some { version := ⟨leDecode p.raw.version⟩
             cell_deps := cds
             header_deps := p.raw.header_deps.map H256.mk
             inputs := p.raw.inputs.map cellInputFromPacked
             outputs := outs
             outputs_data := p.raw.outputs_data.map GraphqlBytes.mk
             witnesses := p.witnesses.map GraphqlBytes.mk
             hash := ⟨H p.raw⟩ }
  | _, _ => none

/-! ## Structural encoding (`impl From<X> for packed::X`) -/

def outPointToPacked (o : OutPoint) : POutPoint :=
  { tx_hash := o.tx_hash.val, index := leEncode 4 o.index.val }

def cellInputToPacked (i : CellInput) : PCellInput :=
  { since := leEncode 8 i.since.val, previous_output := outPointToPacked i.previous_output }

def scriptToPacked (s : Script) : PScript :=
  { code_hash := s.code_hash.val, hash_type := s.hash_type.toByte, args := s.args.val }

def cellOutputToPacked (c : CellOutput) : PCellOutput :=
  { capacity := leEncode 8 c.capacity.val
    lock := scriptToPacked c.lock
    type_ := c.type_.map scriptToPacked }

def cellDepToPacked (d : CellDep) : PCellDep :=
  { out_point := outPointToPacked d.out_point, dep_type := d.dep_type.toByte }

/-- `impl From<TransactionView> for packed::Transaction`: rebuilds the raw
portion from the six structural fields and attaches the witnesses; the `hash`
field is never read. -/
def transactionViewToPacked (t : TransactionView) : PTransaction :=
  { raw := { version := leEncode 4 t.version.val
             cell_deps := t.cell_deps.map cellDepToPacked
             header_deps := t.header_deps.map H256.val
             inputs := t.inputs.map cellInputToPacked
             outputs := t.outputs.map cellOutputToPacked
             outputs_data := t.outputs_data.map GraphqlBytes.val }
    witnesses := t.witnesses.map GraphqlBytes.val }

/-! ## Structural validity of packed records

A record is structurally valid (canonical molecule encoding) when every
fixed-width leaf has its schema length with real bytes, and every tag byte
lies in its enumerated set. -/

def isByteSeq (bs : List Nat) : Bool := bs.all (· < 256)

def isBytesOf (w : Nat) (bs : List Nat) : Bool := bs.length == w && isByteSeq bs

def POutPoint.sValid (p : POutPoint) : Bool :=
  isBytesOf 32 p.tx_hash && isBytesOf 4 p.index

def PCellInput.sValid (p : PCellInput) : Bool :=
  isBytesOf 8 p.since && p.previous_output.sValid

def PScript.sValid (p : PScript) : Bool :=
  isBytesOf 32 p.code_hash && decide (p.hash_type < 3) && isByteSeq p.args

def optScriptValid : Option PScript → Bool
  | none => true
  | some s => s.sValid

def PCellOutput.sValid (p : PCellOutput) : Bool :=
  isBytesOf 8 p.capacity && p.lock.sValid && optScriptValid p.type_

def PCellDep.sValid (p : PCellDep) : Bool :=
  p.out_point.sValid && decide (p.dep_type < 2)

def PRawTransaction.sValid (r : PRawTransaction) : Bool :=
  isBytesOf 4 r.version && r.cell_deps.all PCellDep.sValid
    && r.header_deps.all (isBytesOf 32) && r.inputs.all PCellInput.sValid
    && r.outputs.all PCellOutput.sValid && r.outputs_data.all isByteSeq

def PTransaction.sValid (p : PTransaction) : Bool :=
  p.raw.sValid && p.witnesses.all isByteSeq

/-! ## Concrete records used as evaluation inputs -/

/-- A stand-in for the black-box canonical hash: any concrete function will
do for evaluating the decoder, since the codec treats it opaquely. -/
def constHash32 (_ : PRawTransaction) : List Nat := List.replicate 32 0

/-- The packed encoding of the empty transaction. -/
def emptyPTransaction : PTransaction :=
  { raw := { version := [0, 0, 0, 0], cell_deps := [], header_deps := [],
             inputs := [], outputs := [], outputs_data := [] }
    witnesses := [] }

/-- The view the decoder produces from `emptyPTransaction` under `constHash32`. -/
def emptyTV : TransactionView :=
  { version := ⟨0⟩, cell_deps := [], header_deps := [], inputs := [], outputs := []
    outputs_data := [], witnesses := [], hash := ⟨List.replicate 32 0⟩ }

/-- `emptyTV` with a different `hash` field (all other fields equal). -/
def emptyTVAltHash : TransactionView := { emptyTV with hash := ⟨[1, 2, 3]⟩ }

/-- A packed transaction whose `outputs` (empty) and `outputs_data` (one
entry) arrays have different lengths. -/
def mismatchPTransaction : PTransaction :=
  { raw := { version := [0, 0, 0, 0], cell_deps := [], header_deps := [],
             inputs := [], outputs := [], outputs_data := [[1, 2]] }
    witnesses := [] }

/-- A structurally valid packed transaction exercising every field: one cell
dep, one header dep, one input, one output with a type script, its data, and
one witness. -/
def samplePTransaction : PTransaction :=
  { raw := { version := [1, 0, 0, 0]
             cell_deps := [{ out_point := { tx_hash := List.replicate 32 17
                                            index := [1, 0, 0, 0] }
                             dep_type := 1 }]
             header_deps := [List.replicate 32 34]
             inputs := [{ since := [8, 7, 6, 5, 4, 3, 2, 1]
                          previous_output := { tx_hash := List.replicate 32 51
                                               index := [255, 0, 0, 0] } }]
             outputs := [{ capacity := [0, 225, 245, 5, 0, 0, 0, 0]
                           lock := { code_hash := List.replicate 32 68
                                     hash_type := 2
                                     args := [1, 2, 3] }
                           type_ := some { code_hash := List.replicate 32 85
                                           hash_type := 0
                                           args := [] } }]
             outputs_data := [[222, 173, 190, 239]] }
    witnesses := [[85, 85]] }

/-! ## Properties of the numeric hex formatting -/

theorem leEncode_leDecode (bs : List Nat) (h : ∀ b ∈ bs, b < 256) :
    leEncode bs.length (leDecode bs) = bs := by
  induction bs with
  | nil => rfl
  | cons b bs ih =>
    have hb : b < 256 := h b (by simp)
    have hrest : ∀ x ∈ bs, x < 256 := fun x hx => h x (by simp [hx])
    simp only [List.length_cons, leDecode, leEncode]
    rw [Nat.add_mul_mod_self_left, Nat.mod_eq_of_lt hb,
      Nat.add_mul_div_left _ _ (by norm_num : (0:ℕ) < 256),
      Nat.div_eq_of_lt hb, Nat.zero_add, ih hrest]

theorem hexDigitVal_nibbleChar : ∀ d < 16, hexDigitVal? (nibbleChar d) = some d := by
  decide

theorem nibbleChar_mem_lowerHex : ∀ d < 16, nibbleChar d ∈ lowerHexChars := by
  decide

theorem natHexAux_eq (v : Nat) : ∀ (fuel : Nat) (acc : List Char), v < fuel →
    natHexAux fuel v acc = natHexDigits v ++ acc := by
  induction v using Nat.strong_induction_on with
  | _ v ih =>
    intro fuel acc hv
    match fuel, hv with
    | fuel + 1, _ =>
      by_cases h16 : v < 16
      · simp [natHexAux, h16, natHexDigits]
      · have hdiv : v / 16 < v := Nat.div_lt_self (by omega) (by omega)
        have h1 : natHexAux (fuel + 1) v acc
            = natHexAux fuel (v / 16) (nibbleChar (v % 16) :: acc) := by
          simp [natHexAux, h16]
        have h2 : natHexDigits v = natHexAux v (v / 16) [nibbleChar (v % 16)] := by
          simp [natHexDigits, natHexAux, h16]
        rw [h1, h2, ih (v / 16) hdiv fuel _ (by omega), ih (v / 16) hdiv v _ (by omega)]
        simp

theorem natHexDigits_lt {v : Nat} (h : v < 16) : natHexDigits v = [nibbleChar v] := by
  simp [natHexDigits, natHexAux, h]

theorem natHexDigits_ge {v : Nat} (h : 16 ≤ v) :
    natHexDigits v = natHexDigits (v / 16) ++ [nibbleChar (v % 16)] := by
  have h16 : ¬ v < 16 := by omega
  have h2 : natHexDigits v = natHexAux v (v / 16) [nibbleChar (v % 16)] := by
    simp [natHexDigits, natHexAux, h16]
  rw [h2, natHexAux_eq _ _ _ (Nat.div_lt_self (by omega) (by omega))]

theorem natHexDigits_ne_nil (v : Nat) : natHexDigits v ≠ [] := by
  by_cases h16 : v < 16
  · rw [natHexDigits_lt h16]; simp
  · rw [natHexDigits_ge (by omega)]; simp

theorem natHexDigits_mem_lowerHex (v : Nat) :
    ∀ c ∈ natHexDigits v, c ∈ lowerHexChars := by
  induction v using Nat.strong_induction_on with
  | _ v ih =>
    by_cases h16 : v < 16
    · rw [natHexDigits_lt h16]
      intro c hc
      rw [List.mem_singleton] at hc
      exact hc ▸ nibbleChar_mem_lowerHex v h16
    · rw [natHexDigits_ge (by omega)]
      intro c hc
      rcases List.mem_append.1 hc with h | h
      · exact ih (v / 16) (Nat.div_lt_self (by omega) (by omega)) c h
      · rw [List.mem_singleton] at h
        exact h ▸ nibbleChar_mem_lowerHex _ (Nat.mod_lt _ (by omega))

theorem natHexDigits_head (v : Nat) (hv : v ≠ 0) :
    (natHexDigits v).head? ≠ some '0' := by
  induction v using Nat.strong_induction_on with
  | _ v ih =>
    by_cases h16 : v < 16
    · rw [natHexDigits_lt h16]
      have hne : ∀ w < 16, w ≠ 0 → nibbleChar w ≠ '0' := by decide
      simpa using hne v h16 hv
    · obtain ⟨c, cs, hdig⟩ := List.exists_cons_of_ne_nil (natHexDigits_ne_nil (v / 16))
      have hdtail := ih (v / 16) (Nat.div_lt_self (by omega) (by omega)) (by omega)
      rw [natHexDigits_ge (by omega : 16 ≤ v), hdig]
      rw [hdig] at hdtail
      simpa using hdtail

theorem parseHexLoop_digits (width : Nat) :
    ∀ v, v < 2 ^ width → ∀ (acc : Nat) (tail : List Char),
      acc * 16 ^ (natHexDigits v).length + v < 2 ^ width →
      parseHexLoop width acc (natHexDigits v ++ tail) =
        parseHexLoop width (acc * 16 ^ (natHexDigits v).length + v) tail := by
  intro v
  induction v using Nat.strong_induction_on with
  | _ v ih =>
    intro hv acc tail hbound
    by_cases h16 : v < 16
    · rw [natHexDigits_lt h16] at hbound ⊢
      simp only [List.length_singleton, pow_one] at hbound ⊢
      simp [parseHexLoop, hexDigitVal_nibbleChar v h16, hbound]
    · have hdiv : v / 16 < v := Nat.div_lt_self (by omega) (by omega)
      have hlen : (natHexDigits v).length = (natHexDigits (v / 16)).length + 1 := by
        rw [natHexDigits_ge (by omega : 16 ≤ v)]; simp
      have harith : (acc * 16 ^ (natHexDigits (v / 16)).length + v / 16) * 16 + v % 16
          = acc * 16 ^ (natHexDigits v).length + v := by
        rw [hlen, pow_succ]
        have hdm : 16 * (v / 16) + v % 16 = v := Nat.div_add_mod v 16
        calc (acc * 16 ^ (natHexDigits (v / 16)).length + v / 16) * 16 + v % 16
            = acc * (16 ^ (natHexDigits (v / 16)).length * 16)
              + (16 * (v / 16) + v % 16) := by ring
          _ = _ := by rw [hdm]
      have hA : acc * 16 ^ (natHexDigits (v / 16)).length + v / 16 < 2 ^ width := by
        set A := acc * 16 ^ (natHexDigits (v / 16)).length + v / 16 with hAdef
        have : A * 16 + v % 16 < 2 ^ width := by rw [harith]; exact hbound
        omega
      rw [natHexDigits_ge (by omega : 16 ≤ v), List.append_assoc,
        ih (v / 16) hdiv (by omega) acc _ hA]
      simp only [List.singleton_append, parseHexLoop,
        hexDigitVal_nibbleChar (v % 16) (Nat.mod_lt _ (by omega))]
      rw [if_pos (harith ▸ hbound), harith]
      simp only [List.append_eq, List.nil_append]
      rw [← natHexDigits_ge (by omega : 16 ≤ v)]

theorem from_str_radix16_digits (width v : Nat) (hv : v < 2 ^ width) :
    from_str_radix16 width (natHexDigits v) = .ok v := by
  obtain ⟨c, cs, hd⟩ := List.exists_cons_of_ne_nil (natHexDigits_ne_nil v)
  have hc : c ∈ lowerHexChars :=
    natHexDigits_mem_lowerHex v c (by rw [hd]; exact List.mem_cons_self _ _)
  have hplusmem : ('+' : Char) ∉ lowerHexChars := by decide
  have hplus : c ≠ '+' := fun h => hplusmem (h ▸ hc)
  have hloop := parseHexLoop_digits width v hv 0 [] (by simpa using hv)
  rw [hd] at hloop ⊢
  simpa [from_str_radix16, hplus, parseHexLoop] using hloop

theorem foldl_natHexDigits :
    ∀ v a : Nat, (natHexDigits v).foldl (fun x c => x * 16 + (hexDigitVal? c).getD 0) a
      = a * 16 ^ (natHexDigits v).length + v := by
  intro v
  induction v using Nat.strong_induction_on with
  | _ v ih =>
    intro a
    by_cases h16 : v < 16
    · rw [natHexDigits_lt h16]
      simp [hexDigitVal_nibbleChar v h16]
    · have hdiv : v / 16 < v := Nat.div_lt_self (by omega) (by omega)
      have hlen : (natHexDigits v).length = (natHexDigits (v / 16)).length + 1 := by
        rw [natHexDigits_ge (by omega : 16 ≤ v)]; simp
      rw [natHexDigits_ge (by omega : 16 ≤ v), List.foldl_append, ih (v / 16) hdiv a]
      simp only [List.foldl_cons, List.foldl_nil,
        hexDigitVal_nibbleChar (v % 16) (Nat.mod_lt _ (by omega)), Option.getD_some,
        List.length_append, List.length_singleton, pow_succ]
      have hdm : 16 * (v / 16) + v % 16 = v := Nat.div_add_mod v 16
      calc (a * 16 ^ (natHexDigits (v / 16)).length + v / 16) * 16 + v % 16
          = a * (16 ^ (natHexDigits (v / 16)).length * 16)
            + (16 * (v / 16) + v % 16) := by ring
        _ = _ := by rw [hdm]

theorem digitsVal_natHexDigits (v : Nat) : digitsVal (natHexDigits v) = v := by
  simpa [digitsVal] using foldl_natHexDigits v 0

/-! ## Properties of the byte-level hex codec -/

theorem hexString_cons (b : Nat) (bs : List Nat) :
    hexString (b :: bs) = nibbleChar (b / 16) :: nibbleChar (b % 16) :: hexString bs := by
  simp [hexString]

theorem hexString_length (bs : List Nat) : (hexString bs).length = 2 * bs.length := by
  induction bs with
  | nil => rfl
  | cons b bs ih => rw [hexString_cons]; simp [ih]; omega

theorem hexString_mem (bs : List Nat) (h : ∀ b ∈ bs, b < 256) :
    ∀ c ∈ hexString bs, c ∈ lowerHexChars := by
  induction bs with
  | nil => simp [hexString]
  | cons b bs ih =>
    have hb : b < 256 := h b (List.mem_cons_self _ _)
    rw [hexString_cons]
    intro c hc
    rcases hc with _ | ⟨_, hc⟩
    · exact nibbleChar_mem_lowerHex (b / 16) (by omega)
    · rcases hc with _ | ⟨_, hc⟩
      · exact nibbleChar_mem_lowerHex (b % 16) (by omega)
      · exact ih (fun x hx => h x (List.mem_cons_of_mem _ hx)) c hc

theorem decodePairs_hexString (bs : List Nat) (h : ∀ b ∈ bs, b < 256) :
    decodePairs (hexString bs) = bs := by
  induction bs with
  | nil => rfl
  | cons b bs ih =>
    have hb : b < 256 := h b (List.mem_cons_self _ _)
    rw [hexString_cons]
    simp only [decodePairs, hexDigitVal_nibbleChar (b / 16) (by omega),
      hexDigitVal_nibbleChar (b % 16) (by omega), Option.getD_some]
    rw [ih fun x hx => h x (List.mem_cons_of_mem _ hx)]
    congr 1
    omega

theorem fasterHexDecode_hexString (bs : List Nat) (h : ∀ b ∈ bs, b < 256) :
    fasterHexDecode (hexString bs) = .ok bs := by
  have hall : (hexString bs).all (fun c => (hexDigitVal? c).isSome) = true := by
    rw [List.all_eq_true]
    intro c hc
    have hmem := hexString_mem bs h c hc
    have : ∀ c ∈ lowerHexChars, (hexDigitVal? c).isSome = true := by decide
    exact this c hmem
  simp only [fasterHexDecode, hexString_length, Nat.mul_mod_right, ne_eq,
    not_true_eq_false, if_false, hall, if_true, decodePairs_hexString bs h]

theorem clean_0x_hex_encode (bs : List Nat) :
    clean_0x (hex_encode bs) = .ok (hexString bs) := by
  simp [clean_0x, hex_encode, hexMark]

theorem hex_decode_hex_encode (bs : List Nat) (h : ∀ b ∈ bs, b < 256) :
    hex_decode (hex_encode bs) = .ok bs := by
  have hne : hex_encode bs ≠ [] := by simp [hex_encode, hexMark]
  rw [hex_decode, if_neg hne, clean_0x_hex_encode]
  simp [fasterHexDecode_hexString bs h, Except.mapError]

/-! ## Scalar round-trip corollaries -/

theorem uintFromStr_toValue (width v : Nat) (hv : v < 2 ^ width) :
    uintFromStr width (uintToValue v) = .ok v := by
  have hclean : clean_0x (uintToValue v) = .ok (natHexDigits v) := by
    simp [clean_0x, uintToValue, hex_uint, hexMark]
  simp [uintFromStr, hclean, from_str_radix16_digits width v hv, Except.mapError]

theorem hashFromStr_toValue (len : Nat) (bs : List Nat) (hlen : bs.length = len)
    (h : ∀ b ∈ bs, b < 256) : hashFromStr len (hashToValue bs) = .ok bs := by
  simp [hashFromStr, hashToValue, hex_decode_hex_encode bs h, hlen]

theorem bytesFromStr_toValue (bs : List Nat) (h : ∀ b ∈ bs, b < 256) :
    bytesFromStr (bytesToValue bs) = .ok bs :=
  hex_decode_hex_encode bs h

/-! ## Structural round-trip lemmas -/

theorem isBytesOf_iff {w : Nat} {bs : List Nat} :
    isBytesOf w bs = true ↔ bs.length = w ∧ ∀ b ∈ bs, b < 256 := by
  simp [isBytesOf, isByteSeq, List.all_eq_true]

theorem leEncode_of_bytes (w : Nat) (bs : List Nat) (hl : bs.length = w)
    (hb : ∀ b ∈ bs, b < 256) : leEncode w (leDecode bs) = bs := by
  subst hl; exact leEncode_leDecode bs hb

theorem scriptHashType_roundtrip : ∀ b, b < 3 →
    ∃ t, scriptHashTypeFromByte b = some t ∧ t.toByte = b := by
  intro b hb
  match b, hb with
  | 0, _ => exact ⟨.Data, rfl, rfl⟩
  | 1, _ => exact ⟨.Type_, rfl, rfl⟩
  | 2, _ => exact ⟨.Data1, rfl, rfl⟩

theorem depType_roundtrip : ∀ b, b < 2 →
    ∃ t, depTypeFromByte b = some t ∧ t.toByte = b := by
  intro b hb
  match b, hb with
  | 0, _ => exact ⟨.Code, rfl, rfl⟩
  | 1, _ => exact ⟨.DepGroup, rfl, rfl⟩

theorem outPoint_roundtrip (p : POutPoint) (hp : p.sValid = true) :
    outPointToPacked (outPointFromPacked p) = p := by
  obtain ⟨tx_hash, index⟩ := p
  simp only [POutPoint.sValid, Bool.and_eq_true, isBytesOf_iff] at hp
  obtain ⟨_, hilen, hibytes⟩ := hp
  simp [outPointFromPacked, outPointToPacked, leEncode_of_bytes 4 index hilen hibytes]

theorem cellInput_roundtrip (p : PCellInput) (hp : p.sValid = true) :
    cellInputToPacked (cellInputFromPacked p) = p := by
  obtain ⟨since, po⟩ := p
  simp only [PCellInput.sValid, Bool.and_eq_true, isBytesOf_iff] at hp
  obtain ⟨⟨hslen, hsbytes⟩, hpo⟩ := hp
  simp [cellInputFromPacked, cellInputToPacked,
    leEncode_of_bytes 8 since hslen hsbytes, outPoint_roundtrip _ hpo]

theorem script_roundtrip (p : PScript) (hp : p.sValid = true) :
    (scriptFromPacked p).map scriptToPacked = some p := by
  obtain ⟨ch, ht, args⟩ := p
  simp only [PScript.sValid, Bool.and_eq_true, decide_eq_true_eq] at hp
  obtain ⟨⟨_, hht⟩, _⟩ := hp
  obtain ⟨t, ht1, ht2⟩ := scriptHashType_roundtrip ht hht
  simp [scriptFromPacked, ht1, scriptToPacked, ht2]

theorem cellOutput_roundtrip (p : PCellOutput) (hp : p.sValid = true) :
    (cellOutputFromPacked p).map cellOutputToPacked = some p := by
  obtain ⟨cap, lock, type_⟩ := p
  simp only [PCellOutput.sValid, Bool.and_eq_true, isBytesOf_iff] at hp
  obtain ⟨⟨⟨hclen, hcbytes⟩, hlock⟩, htype⟩ := hp
  obtain ⟨ls, hls1, hls2⟩ := Option.map_eq_some'.1 (script_roundtrip lock hlock)
  cases type_ with
  | none =>
    simp [cellOutputFromPacked, hls1, cellOutputToPacked, hls2,
      leEncode_of_bytes 8 cap hclen hcbytes]
  | some s =>
    simp only [optScriptValid] at htype
    obtain ⟨ts, hts1, hts2⟩ := Option.map_eq_some'.1 (script_roundtrip s htype)
    simp [cellOutputFromPacked, hls1, hts1, cellOutputToPacked, hls2, hts2,
      leEncode_of_bytes 8 cap hclen hcbytes]

theorem cellDep_roundtrip (p : PCellDep) (hp : p.sValid = true) :
    (cellDepFromPacked p).map cellDepToPacked = some p := by
  obtain ⟨op, dt⟩ := p
  simp only [PCellDep.sValid, Bool.and_eq_true, decide_eq_true_eq] at hp
  obtain ⟨hop, hdt⟩ := hp
  obtain ⟨t, ht1, ht2⟩ := depType_roundtrip dt hdt
  simp [cellDepFromPacked, ht1, cellDepToPacked, ht2, outPoint_roundtrip _ hop]

theorem mapPanic_roundtrip {α β : Type} (f : α → Option β) (g : β → α) (l : List α)
    (h : ∀ x ∈ l, (f x).map g = some x) :
    (mapPanic f l).map (List.map g) = some l := by
  induction l with
  | nil => rfl
  | cons x xs ih =>
    obtain ⟨y, hy1, hy2⟩ := Option.map_eq_some'.1 (h x (List.mem_cons_self _ _))
    obtain ⟨ys, hys1, hys2⟩ :=
      Option.map_eq_some'.1 (ih fun z hz => h z (List.mem_cons_of_mem _ hz))
    simp [mapPanic, hy1, hys1, hy2, hys2]

theorem mapPanic_length {α β : Type} (f : α → Option β) :
    ∀ (l : List α) (ys : List β), mapPanic f l = some ys → ys.length = l.length := by
  intro l
  induction l with
  | nil =>
    intro ys h
    simp only [mapPanic, Option.some.injEq] at h
    subst h; rfl
  | cons x xs ih =>
    intro ys h
    cases hfx : f x with
    | none => rw [mapPanic, hfx] at h; cases h
    | some y =>
      cases hrec : mapPanic f xs with
      | none => rw [mapPanic, hfx, hrec] at h; cases h
      | some zs =>
        rw [mapPanic, hfx, hrec] at h
        cases h
        simp [ih zs hrec]

theorem map_map_id {α β : Type} (f : α → β) (g : β → α) (l : List α)
    (h : ∀ x ∈ l, g (f x) = x) : (l.map f).map g = l := by
  induction l with
  | nil => rfl
  | cons x xs ih =>
    simp [h x (List.mem_cons_self _ _), ih fun z hz => h z (List.mem_cons_of_mem _ hz)]

/-! ## The claims -/

/-- Claim C1: for every structurally valid packed transaction record `p`,
decoding it to a `TransactionView` and re-encoding yields a record identical
to `p` (for any black-box hash `H` used for the derived `hash` field, which
is not part of the re-encoded record). -/
theorem claim_C1_structural_roundtrip (H : PRawTransaction → List Nat)
    (p : PTransaction) (hp : p.sValid = true) :
    (transactionViewFromPacked H p).map transactionViewToPacked = some p := by
  obtain ⟨raw, witnesses⟩ := p
  obtain ⟨version, cell_deps, header_deps, inputs, outputs, outputs_data⟩ := raw
  simp only [PTransaction.sValid, PRawTransaction.sValid, Bool.and_eq_true,
    isBytesOf_iff, List.all_eq_true] at hp
  obtain ⟨⟨⟨⟨⟨⟨⟨hvlen, hvb⟩, hcd⟩, hhd⟩, hin⟩, hout⟩, _⟩, _⟩ := hp
  obtain ⟨cds, hcds1, hcds2⟩ := Option.map_eq_some'.1
    (mapPanic_roundtrip cellDepFromPacked cellDepToPacked cell_deps
      fun d hd => cellDep_roundtrip d (hcd d hd))
  obtain ⟨outs, houts1, houts2⟩ := Option.map_eq_some'.1
    (mapPanic_roundtrip cellOutputFromPacked cellOutputToPacked outputs
      fun o ho => cellOutput_roundtrip o (hout o ho))
  simp [transactionViewFromPacked, hcds1, houts1, transactionViewToPacked,
    hcds2, houts2, leEncode_of_bytes 4 version hvlen hvb,
    map_map_id cellInputFromPacked cellInputToPacked inputs
      (fun i hi => cellInput_roundtrip i (hin i hi)),
    map_map_id H256.mk H256.val header_deps (fun _ _ => rfl),
    map_map_id GraphqlBytes.mk GraphqlBytes.val outputs_data (fun _ _ => rfl),
    map_map_id GraphqlBytes.mk GraphqlBytes.val witnesses (fun _ _ => rfl)]

/-- Claim C1 witness: the round-trip evaluated on a concrete valid record
covering every field (cell dep, header dep, input, output with type script,
output data, witness). -/
theorem claim_C1_witness :
    samplePTransaction.sValid = true ∧
    (transactionViewFromPacked constHash32 samplePTransaction).map
      transactionViewToPacked = some samplePTransaction :=
  ⟨by decide, claim_C1_structural_roundtrip constHash32 samplePTransaction (by decide)⟩

/-- Claim C2 counterexample: decoding tag byte 3 as `ScriptHashType` (and 2
as `DepType`) hits `unreachable!` — modelled as `none`, no value is produced
— rather than returning a typed `InvalidTagError`; indeed the crate's
`Error` type has no invalid-tag variant at all. -/
theorem claim_C2_counterexample :
    scriptHashTypeFromByte 3 = none ∧ depTypeFromByte 2 = none :=
  ⟨rfl, rfl⟩

/-- Claim C2 (amended): decoding a tag byte of 3 or greater for
`ScriptHashType`, or 2 or greater for `DepType`, panics (`unreachable!`,
modelled as `none`) and never silently aliases to a defined variant: a
successful decode happens exactly at the variant's own tag byte.  No typed
`InvalidTagError` exists in the crate. -/
theorem claim_C2_amended_tag_rejection :
    (∀ b : Nat, 3 ≤ b → scriptHashTypeFromByte b = none) ∧
    (∀ b : Nat, 2 ≤ b → depTypeFromByte b = none) ∧
    (∀ (b : Nat) (t : ScriptHashType), scriptHashTypeFromByte b = some t →
      t.toByte = b) ∧
    (∀ (b : Nat) (t : DepType), depTypeFromByte b = some t → t.toByte = b) := by
  refine ⟨?_, ?_, ?_, ?_⟩
  · intro b hb
    match b, hb with
    | n + 3, _ => rfl
  · intro b hb
    match b, hb with
    | n + 2, _ => rfl
  · intro b t h
    match b, t, h with
    | 0, .Data, _ => rfl
    | 1, .Type_, _ => rfl
    | 2, .Data1, _ => rfl
  · intro b t h
    match b, t, h with
    | 0, .Code, _ => rfl
    | 1, .DepGroup, _ => rfl

/-- Claim C2 witness: the amended statement evaluated at concrete tag
bytes. -/
theorem claim_C2_witness :
    scriptHashTypeFromByte 255 = none ∧ depTypeFromByte 9 = none ∧
    ScriptHashType.toByte .Data1 = 2 ∧ DepType.toByte .DepGroup = 1 :=
  ⟨claim_C2_amended_tag_rejection.1 255 (by decide),
   claim_C2_amended_tag_rejection.2.1 9 (by decide),
   claim_C2_amended_tag_rejection.2.2.1 2 .Data1 rfl,
   claim_C2_amended_tag_rejection.2.2.2 1 .DepGroup rfl⟩

/-- Claim C3 counterexample: a structurally valid packed record with zero
`outputs` but one `outputs_data` entry decodes successfully into a view with
mismatched parallel arrays — nothing is rejected. -/
theorem claim_C3_counterexample :
    mismatchPTransaction.sValid = true ∧
    (transactionViewFromPacked constHash32 mismatchPTransaction).map
      (fun tv => (tv.outputs.length, tv.outputs_data.length)) = some (0, 1) :=
  ⟨rfl, rfl⟩

/-- Claim C3 (amended): the decoder performs no parallel-array check; it
preserves the lengths of `outputs` and `outputs_data` independently, so a
record in which the two lengths differ is not rejected but decodes into a
`TransactionView` whose two arrays differ in length the same way. -/
theorem claim_C3_amended_no_parallel_check (H : PRawTransaction → List Nat)
    (p : PTransaction) (tv : TransactionView)
    (h : transactionViewFromPacked H p = some tv) :
    tv.outputs.length = p.raw.outputs.length ∧
      tv.outputs_data.length = p.raw.outputs_data.length := by
  cases hcd : mapPanic cellDepFromPacked p.raw.cell_deps with
  | none => rw [transactionViewFromPacked, hcd] at h; cases h
  | some cds =>
    cases hout : mapPanic cellOutputFromPacked p.raw.outputs with
    | none => rw [transactionViewFromPacked, hcd, hout] at h; cases h
    | some outs =>
      rw [transactionViewFromPacked, hcd, hout] at h
      cases h
      exact ⟨mapPanic_length cellOutputFromPacked _ _ hout, by simp⟩

/-- Claim C3 witness: the amended statement evaluated on the mismatched
record. -/
theorem claim_C3_witness :
    (transactionViewFromPacked constHash32 mismatchPTransaction).map
        (fun tv => tv.outputs_data.length) = some 1 := by
  obtain ⟨h1, h2⟩ := claim_C3_amended_no_parallel_check constHash32
    mismatchPTransaction
    { version := ⟨0⟩, cell_deps := [], header_deps := [], inputs := [], outputs := []
      outputs_data := [⟨[1, 2]⟩], witnesses := [], hash := ⟨List.replicate 32 0⟩ }
    rfl
  exact Option.map_eq_some'.2 ⟨_, rfl, by simpa using h2⟩

/-- Claim C5: the `hash` field of a decoded `TransactionView` is the
black-box canonical hash `H` applied to the packed raw (structural) portion
of the record — version, cell_deps, header_deps, inputs, outputs,
outputs_data — excluding witnesses, and never recomputed from the typed
structure. -/
theorem claim_C5_hash_derivation (H : PRawTransaction → List Nat)
    (p : PTransaction) (tv : TransactionView)
    (h : transactionViewFromPacked H p = some tv) : tv.hash = ⟨H p.raw⟩ := by
  cases hcd : mapPanic cellDepFromPacked p.raw.cell_deps with
  | none => rw [transactionViewFromPacked, hcd] at h; cases h
  | some cds =>
    cases hout : mapPanic cellOutputFromPacked p.raw.outputs with
    | none => rw [transactionViewFromPacked, hcd, hout] at h; cases h
    | some outs =>
      rw [transactionViewFromPacked, hcd, hout] at h
      cases h
      rfl

/-- Claim C5 witness: hash derivation evaluated on the empty transaction
with a concrete stand-in hash function. -/
theorem claim_C5_witness :
    transactionViewFromPacked constHash32 emptyPTransaction = some emptyTV ∧
    emptyTV.hash = ⟨constHash32 emptyPTransaction.raw⟩ :=
  ⟨rfl, claim_C5_hash_derivation constHash32 emptyPTransaction emptyTV rfl⟩

/-- Claim C10: re-encoding depends only on the seven structural fields; two
views that agree on everything except `hash` produce identical packed
records (the hash is discarded, never serialized). -/
theorem claim_C10_hash_not_serialized (t1 t2 : TransactionView)
    (h1 : t1.version = t2.version) (h2 : t1.cell_deps = t2.cell_deps)
    (h3 : t1.header_deps = t2.header_deps) (h4 : t1.inputs = t2.inputs)
    (h5 : t1.outputs = t2.outputs) (h6 : t1.outputs_data = t2.outputs_data)
    (h7 : t1.witnesses = t2.witnesses) :
    transactionViewToPacked t1 = transactionViewToPacked t2 := by
  cases t1; cases t2; simp_all [transactionViewToPacked]

/-- Claim C10 witness: two concrete views differing only in `hash` encode to
the same packed record. -/
theorem claim_C10_witness :
    emptyTV.hash ≠ emptyTVAltHash.hash ∧
    transactionViewToPacked emptyTV = transactionViewToPacked emptyTVAltHash :=
  ⟨by decide,
   claim_C10_hash_not_serialized emptyTV emptyTVAltHash rfl rfl rfl rfl rfl rfl rfl⟩

/-- Claim C4: for each scalar family, decoding the canonical hexadecimal
text produced by encoding a representable value returns that value exactly:
`Uint32`/`Uint64`/`Uint128` (values below the width bound), `H160`/`H256`
(byte arrays of the fixed length), and `GraphqlBytes` (any byte string). -/
theorem claim_C4_scalar_roundtrip :
    (∀ v : Nat, v < 2 ^ 32 → uintFromStr 32 (uintToValue v) = .ok v) ∧
    (∀ v : Nat, v < 2 ^ 64 → uintFromStr 64 (uintToValue v) = .ok v) ∧
    (∀ v : Nat, v < 2 ^ 128 → uintFromStr 128 (uintToValue v) = .ok v) ∧
    (∀ bs : List Nat, bs.length = 20 → (∀ b ∈ bs, b < 256) →
      hashFromStr 20 (hashToValue bs) = .ok bs) ∧
    (∀ bs : List Nat, bs.length = 32 → (∀ b ∈ bs, b < 256) →
      hashFromStr 32 (hashToValue bs) = .ok bs) ∧
    (∀ bs : List Nat, (∀ b ∈ bs, b < 256) →
      bytesFromStr (bytesToValue bs) = .ok bs) :=
  ⟨fun v hv => uintFromStr_toValue 32 v hv,
   fun v hv => uintFromStr_toValue 64 v hv,
   fun v hv => uintFromStr_toValue 128 v hv,
   fun bs hl hb => hashFromStr_toValue 20 bs hl hb,
   fun bs hl hb => hashFromStr_toValue 32 bs hl hb,
   fun bs hb => bytesFromStr_toValue bs hb⟩

/-- Claim C4 witness: the six round-trips evaluated at concrete values. -/
theorem claim_C4_witness :
    uintFromStr 32 (uintToValue 4294967295) = .ok 4294967295 ∧
    uintFromStr 64 (uintToValue 81985529216486895) = .ok 81985529216486895 ∧
    uintFromStr 128 (uintToValue (2 ^ 128 - 1)) = .ok (2 ^ 128 - 1) ∧
    hashFromStr 20 (hashToValue (List.replicate 20 171)) = .ok (List.replicate 20 171) ∧
    hashFromStr 32 (hashToValue (List.replicate 32 0)) = .ok (List.replicate 32 0) ∧
    bytesFromStr (bytesToValue [0, 15, 255]) = .ok [0, 15, 255] :=
  ⟨claim_C4_scalar_roundtrip.1 4294967295 (by norm_num),
   claim_C4_scalar_roundtrip.2.1 81985529216486895 (by norm_num),
   claim_C4_scalar_roundtrip.2.2.1 (2 ^ 128 - 1) (by norm_num),
   claim_C4_scalar_roundtrip.2.2.2.1 (List.replicate 20 171) (by decide) (by decide),
   claim_C4_scalar_roundtrip.2.2.2.2.1 (List.replicate 32 0) (by decide) (by decide),
   claim_C4_scalar_roundtrip.2.2.2.2.2 [0, 15, 255] (by decide)⟩

/-- Claim C6 counterexample: the empty string lacks the `0x` prefix (as
`clean_0x` itself rejects it), yet `hex_decode` on it succeeds with the empty
byte string instead of failing with the prefix error — the claim's universal
prefix-rejection statement fails at `""`. -/
theorem claim_C6_counterexample :
    clean_0x [] = .error .HexPrefixError ∧ hex_decode [] = .ok [] :=
  ⟨rfl, rfl⟩

/-- Claim C6 (amended): every NONEMPTY input lacking the `0x`/`0X` prefix
fails with the hex-prefix error (the empty string bypasses the check and
decodes to the empty byte string); after the prefix, an odd-length payload
fails with `FromHex (InvalidLength _)` and an even-length payload containing
a non-hex character fails with `FromHex InvalidChar` — including the
concrete examples `"ff"` and `"0xz"`. -/
theorem claim_C6_amended_malformed_rejection :
    (∀ s : List Char, s ≠ [] → ¬(s.take 2 = ['0', 'x'] ∨ s.take 2 = ['0', 'X']) →
      hex_decode s = .error .HexPrefixError) ∧
    (∀ pre s : List Char, (pre = ['0', 'x'] ∨ pre = ['0', 'X']) →
      s.length % 2 = 1 →
      hex_decode (pre ++ s) = .error (.FromHex (.InvalidLength s.length))) ∧
    (∀ pre s : List Char, (pre = ['0', 'x'] ∨ pre = ['0', 'X']) →
      s.length % 2 = 0 → (∃ c ∈ s, hexDigitVal? c = none) →
      hex_decode (pre ++ s) = .error (.FromHex .InvalidChar)) ∧
    hex_decode ['f', 'f'] = .error .HexPrefixError ∧
    hex_decode ['0', 'x', 'z'] = .error (.FromHex (.InvalidLength 1)) := by
  refine ⟨?_, ?_, ?_, rfl, rfl⟩
  · intro s hne hnp
    simp [hex_decode, hne, clean_0x, hnp]
  · intro pre s hpre hodd
    have hne2 : s.length % 2 ≠ 0 := by omega
    rcases hpre with rfl | rfl <;>
      simp [hex_decode, clean_0x, fasterHexDecode, hne2, Except.mapError]
  · intro pre s hpre heven hbad
    obtain ⟨c, hc, hcnone⟩ := hbad
    have hall : s.all (fun c => (hexDigitVal? c).isSome) = false := by
      cases hall : s.all (fun c => (hexDigitVal? c).isSome) with
      | false => rfl
      | true =>
        exfalso
        rw [List.all_eq_true] at hall
        have := hall c hc
        rw [hcnone] at this
        simp at this
    rcases hpre with rfl | rfl <;>
      simp [hex_decode, clean_0x, fasterHexDecode, heven, hall, Except.mapError]

/-- Claim C6 witness: the amended statement evaluated at concrete malformed
inputs (`"abcd"` without prefix, `"0Xabc"` with odd payload, `"0xzz"` with a
non-hex character). -/
theorem claim_C6_witness :
    hex_decode ['a', 'b', 'c', 'd'] = .error .HexPrefixError ∧
    hex_decode ['0', 'X', 'a', 'b', 'c'] = .error (.FromHex (.InvalidLength 3)) ∧
    hex_decode ['0', 'x', 'z', 'z'] = .error (.FromHex .InvalidChar) :=
  ⟨claim_C6_amended_malformed_rejection.1 ['a', 'b', 'c', 'd'] (by decide) (by decide),
   claim_C6_amended_malformed_rejection.2.1 ['0', 'X'] ['a', 'b', 'c']
     (Or.inr rfl) (by decide),
   claim_C6_amended_malformed_rejection.2.2.1 ['0', 'x'] ['z', 'z']
     (Or.inl rfl) (by decide) ⟨'z', by decide, by decide⟩⟩

/-- Claim C7: decoding hexadecimal text as a fixed-length hash fails with
`ParseBytes` whenever the decoded byte length differs from the required
width; in particular a 31-byte payload decoded as `H256` fails so. -/
theorem claim_C7_hash_length_rejection :
    (∀ (len : Nat) (s : List Char) (bs : List Nat),
      hex_decode s = .ok bs → bs.length ≠ len →
      hashFromStr len s = .error .ParseBytes) ∧
    (∀ bs : List Nat, bs.length = 31 → (∀ b ∈ bs, b < 256) →
      hashFromStr 32 (hex_encode bs) = .error .ParseBytes) := by
  constructor
  · intro len s bs hdec hne
    simp [hashFromStr, hdec, hne]
  · intro bs hl hb
    have hdec := hex_decode_hex_encode bs hb
    simp [hashFromStr, hdec, hl]

/-- Claim C7 witness: the rejection evaluated on a concrete short input and
on a concrete 31-byte payload. -/
theorem claim_C7_witness :
    hashFromStr 32 ['0', 'x', 'a', 'b'] = .error .ParseBytes ∧
    hashFromStr 32 (hex_encode (List.replicate 31 7)) = .error .ParseBytes :=
  ⟨claim_C7_hash_length_rejection.1 32 ['0', 'x', 'a', 'b'] [171] rfl (by decide),
   claim_C7_hash_length_rejection.2 (List.replicate 31 7) (by decide) (by decide)⟩

/-- Claim C8: integer scalars encode as `0x` plus lowercase hex digits with
no leading-zero padding (zero is exactly `"0x0"`, a nonzero value never
starts with `'0'`), and the digits denote the encoded value; fixed-length
hashes and byte strings encode as `0x` plus two lowercase hex digits per
byte, so an `H256` renders as `0x` plus exactly 64 digits (66 characters). -/
theorem claim_C8_canonical_text_shape :
    uintToValue 0 = ['0', 'x', '0'] ∧
    (∀ v : Nat, ∃ ds, uintToValue v = ['0', 'x'] ++ ds ∧ ds ≠ [] ∧
      (∀ c ∈ ds, c ∈ lowerHexChars) ∧ (v ≠ 0 → ds.head? ≠ some '0') ∧
      digitsVal ds = v) ∧
    (∀ bs : List Nat, (∀ b ∈ bs, b < 256) → ∃ ds,
      hashToValue bs = ['0', 'x'] ++ ds ∧ ds.length = 2 * bs.length ∧
      ∀ c ∈ ds, c ∈ lowerHexChars) ∧
    (∀ bs : List Nat, bs.length = 32 → (hashToValue bs).length = 66) := by
  refine ⟨rfl, ?_, ?_, ?_⟩
  · intro v
    exact ⟨natHexDigits v, rfl, natHexDigits_ne_nil v, natHexDigits_mem_lowerHex v,
      natHexDigits_head v, digitsVal_natHexDigits v⟩
  · intro bs hb
    exact ⟨hexString bs, rfl, hexString_length bs, hexString_mem bs hb⟩
  · intro bs hl
    simp [hashToValue, hex_encode, hexMark, hexString_length, hl]

/-- Claim C8 witness: the text-shape statement evaluated at a concrete
32-byte hash. -/
theorem claim_C8_witness :
    (hashToValue (List.replicate 32 222)).length = 66 :=
  claim_C8_canonical_text_shape.2.2.2 (List.replicate 32 222) (by decide)

/-- Claim C9: the empty string bypasses the prefix check: `GraphqlBytes`
accepts `""` as the empty byte string, while `H160`/`H256` reject `""` with
`ParseBytes` (a length mismatch), NOT with the hex-prefix error, despite the
missing `0x`. -/
theorem claim_C9_empty_string_bypass :
    bytesFromStr [] = .ok [] ∧
    hashFromStr 20 [] = .error .ParseBytes ∧
    hashFromStr 32 [] = .error .ParseBytes ∧
    hashFromStr 20 [] ≠ .error .HexPrefixError ∧
    hashFromStr 32 [] ≠ .error .HexPrefixError := by
  decide

end CkbGraphql
